import Mathlib

/-!
Verification development for the flexx event system (the JS variant of the
Component class, `flexx/event/_js.py`) and the HVLayout widget actions
(`flexx/ui/layouts/_hv.py`, `_box.py`).

The Python/PyScript code is shallowly embedded: each method that a claim
depends on is translated into an executable Lean definition over explicit
state.  Dynamic values are modelled by the `PValue` type, Python exceptions
by `Except PyErr`.  Parts of the reactive core that are only *called* from
the embedded code (the `Loop` and `Reaction` classes, `Component.emit`) are
not part of the source tree; those definitions are modelled from the spec
and carry a doc comment saying so.
-/

namespace Flexx

/-- Dynamic (JSON-like) runtime values, as far as the embedded code needs
them.  `vnone` stands for Python `None` / JS `null`. -/
inductive PValue where
  | vnone
  | vbool (b : Bool)
  | vint (n : Int)
  | vstr (s : String)
deriving DecidableEq, Repr

/-- Python exception classes raised by the embedded code, with their
messages. -/
inductive PyErr where
  | attributeError (msg : String)
  | typeError (msg : String)
  | runtimeError (msg : String)
  | valueError (msg : String)
  | unboundLocalError (msg : String)
deriving DecidableEq, Repr

/-- Python `repr` of a string (as used by the `%r` format in the source). -/
def pyrepr (s : String) : String := "\x27" ++ s ++ "\x27"

/-! ### Action invocation — `ComponentJS.__create_action` (`_js.py` 249-266)

The wrapper created for each declared action:

    def action():  # this func should return None, so super() works correct
        if loop.is_processing_actions() is True:
            res = action_func.apply(self, arguments)
            if res is not None:
                logger.warn('Action (%s) is not supposed to return a value' % name)
        else:
            loop.add_action_invokation(action, arguments)

The loop state visible to the wrapper is whether a batch is currently
processing actions, the pending action queue, and the log. -/

/-- State of the scheduling loop as seen by an action wrapper call:
`is_processing_actions`, the pending `(action, args)` queue, and the
warnings logged so far. -/
structure ActionEnv where
  processing : Bool
  queue : List (String × List PValue)
  warnings : List String
deriving DecidableEq, Repr

/-- Result of calling the action wrapper: the updated loop state, whether
the underlying function ran synchronously, and the value returned to the
caller (the wrapper itself has no `return`, so this is always `vnone`). -/
structure ActionCallResult where
  env : ActionEnv
  ran_synchronously : Bool
  return_value : PValue
deriving DecidableEq, Repr

/-- Embedding of the wrapper from `ComponentJS.__create_action`:
`action_func` is the underlying function (its effects other than its return
value are outside this wrapper), `name` the action name, `args` the call
arguments. -/
def action_call (env : ActionEnv) (action_func : List PValue → PValue)
    (name : String) (args : List PValue) : ActionCallResult :=
  if env.processing = true then
    let res := action_func args
    let env :=
      if res ≠ PValue.vnone then
        { env with warnings := env.warnings ++
            ["Action (" ++ name ++ ") is not supposed to return a value"] }
      else env
    ⟨env, true, PValue.vnone⟩
  else
    ⟨{ env with queue := env.queue ++ [(name, args)] }, false, PValue.vnone⟩

/-! ### The runtime `Component.reaction()` method (`_js.py` 218-247) -/

/-- An argument passed to `Component.reaction()`: a callable (identified by
an id), a string, or anything else. -/
inductive RArg where
  | func (fid : Nat)
  | str (s : String)
  | other
deriving DecidableEq, Repr

/-- JS `callable()` test on a reaction argument. -/
def RArg.callable : RArg → Bool
  | .func _ => true
  | _ => false

/-- The verification loop over connection strings:
`if not (isinstance(s, str) and len(s)): raise ValueError(...)`. -/
def verify_strings : List RArg → Except PyErr (List String)
  | [] => .ok []
  | a :: rest =>
    match a with
    | .str s =>
      if s.length = 0 then
        .error (.valueError "Connection string must be nonempty strings.")
      else do
        let ss ← verify_strings rest
        .ok (s :: ss)
    | _ => .error (.valueError "Connection string must be nonempty strings.")

/-- Embedding of `ComponentJS.reaction` (the JS variant): needs at least two
arguments, takes the callable from the first or last position, verifies the
remaining arguments as nonempty connection strings, and returns the pair
that is handed to `__create_reaction_ob`. -/
def reaction_method (args : List RArg) : Except PyErr (Nat × List String) :=
  if args.length < 2 then
    .error (.runtimeError
      "Component.reaction() (js) needs a function and one or more connection strings.")
  else
    match args.head? with
    | some (.func fid) => do
      let ss ← verify_strings args.tail
      .ok (fid, ss)
    | _ =>
      match args.getLast? with
      | some (.func fid) => do
        let ss ← verify_strings args.dropLast
        .ok (fid, ss)
      | _ => .error (.typeError "Component.reaction() requires a callable.")

/-! ### Initial property values — `ComponentJS._comp_init_property_values`
(`_js.py` 162-190) and `_comp_make_implicit_setter` (192-199) -/

/-- Class-level declaration data of a component, as the constructor sees it:
the `__properties__`, `__attributes__` and `__actions__` name lists, the
class defaults (the prototype values of `_<name>_value`), and the validator
functions `_<name>_validate`.  Validators are modelled as total functions;
a validator that raises would propagate out of the constructor, which none
of the verified claims exercises. -/
structure CompSpec where
  properties : List String
  attributes : List String
  actions : List String
  defaults : String → PValue
  validate : String → PValue → PValue

/-- An initial value supplied as a constructor keyword: a literal value, or
a zero-argument callable (identified by an id; `callEnv` below gives each
callable its result). -/
inductive InitValue where
  | lit (v : PValue)
  | func (fid : Nat)
deriving DecidableEq, Repr

/-- The event dict built by `_comp_init_property_values`:
`dict(type=name, new_value=value, old_value=value, mutation='set')`. -/
structure InitEvent where
  type : String
  new_value : PValue
  old_value : PValue
  mutation : String
deriving DecidableEq, Repr

/-- The anonymous reaction created by `_comp_make_implicit_setter`: its name
is `'auto-' + prop_name`, its connection-string list is empty, and its body
is `lambda: setter_func(func())` — captured here as the target property and
the callable id. -/
structure AnonReaction where
  name : String
  connection_strings : List String
  target_prop : String
  fid : Nat
deriving DecidableEq, Repr

/-- Instance attribute store update (`self[value_name] = value`). -/
def updateStore (vals : String → PValue) (key : String) (v : PValue) :
    String → PValue :=
  fun k => if k = key then v else vals k

/-- Embedding of `ComponentJS._comp_make_implicit_setter`: looks up the
`set_<prop_name>` action (TypeError if the component has none), wraps it in
the `setter_reaction` lambda, creates a reaction named `auto-<prop_name>`
with no connection strings, and appends it to `__anonymous_reactions`. -/
def _comp_make_implicit_setter (cs : CompSpec) (self_id : String)
    (prop_name : String) (fid : Nat) (anons : List AnonReaction) :
    Except PyErr (List AnonReaction) :=
  if ("set_" ++ prop_name) ∈ cs.actions then
    .ok (anons ++ [⟨"auto-" ++ prop_name, [], prop_name, fid⟩])
  else
    .error (.typeError (self_id ++ " does not have a set_" ++ prop_name ++
      "() action for property " ++ prop_name ++ "."))

/-- Running an anonymous implicit-setter reaction
(`setter_reaction = lambda: setter_func(func())`): calling it invokes the
`set_<target>` action with the callable result.  `callEnv` maps each
callable id to the value it returns when called. -/
def runAnonReaction (callEnv : Nat → PValue) (r : AnonReaction) :
    String × List PValue :=
  ("set_" ++ r.target_prop, [callEnv r.fid])

/-- First loop of `_comp_init_property_values`: for each declared property,
read the (class-default) stored value, validate it, store it back, and — if
no initial value was supplied for it — record a synthetic `set` event with
`old_value == new_value`.  `pvkeys` is the key set of `property_values`. -/
def initDefaultsLoop (cs : CompSpec) (pvkeys : List String) :
    List String → (String → PValue) → ((String → PValue) × List InitEvent)
  | [], vals => (vals, [])
  | name :: rest, vals =>
    let value_name := "_" ++ name ++ "_value"
    let value := cs.validate name (vals value_name)
    let vals := updateStore vals value_name value
    let (vfin, evs) := initDefaultsLoop cs pvkeys rest vals
    if pvkeys.contains name then (vfin, evs)
    else (vfin, ⟨name, value, value, "set"⟩ :: evs)

/-- Result state of `_comp_init_property_values`: the instance store, the
`__anonymous_reactions` list, and the returned event list. -/
structure InitResult where
  values : String → PValue
  anons : List AnonReaction
  events : List InitEvent

/-- Second loop of `_comp_init_property_values`: process the initial values
given at construction time.  An unknown name raises AttributeError (with a
distinct message if it names a declared attribute); a callable installs an
implicit setter and is neither validated nor stored; a literal is validated,
stored, and recorded as a synthetic `set` event with
`old_value == new_value`. -/
def initGivenLoop (cs : CompSpec) (self_id : String) :
    List (String × InitValue) → (String → PValue) → List AnonReaction →
    List InitEvent → Except PyErr InitResult
  | [], vals, anons, evs => .ok ⟨vals, anons, evs⟩
  | (name, value) :: rest, vals, anons, evs =>
    if name ∈ cs.properties then
      match value with
      | .func fid => do
        let anons ← _comp_make_implicit_setter cs self_id name fid anons
        initGivenLoop cs self_id rest vals anons evs
      | .lit v =>
        let v := cs.validate name v
        let vals := updateStore vals ("_" ++ name ++ "_value") v
        initGivenLoop cs self_id rest vals anons (evs ++ [⟨name, v, v, "set"⟩])
    else if name ∈ cs.attributes then
      .error (.attributeError (self_id ++ "." ++ name ++
        " is an attribute, not a property"))
    else
      .error (.attributeError (self_id ++ " does not have property " ++
        name ++ "."))

/-- Embedding of `ComponentJS._comp_init_property_values`: defaults loop
followed by the given-values loop.  The instance store starts at the class
prototype values (`cs.defaults`), and `__anonymous_reactions` starts
empty. -/
def _comp_init_property_values (cs : CompSpec) (self_id : String)
    (property_values : List (String × InitValue)) : Except PyErr InitResult :=
  let (vals, events) :=
    initDefaultsLoop cs (property_values.map Prod.fst) cs.properties cs.defaults
  initGivenLoop cs self_id property_values vals [] events

/-! ### Property getter and setter — `ComponentJS.__create_property`
(`_js.py` 277-287) -/

/-- Modelled from the spec: the scheduling loop's property-access recording
buffer (`Loop.register_prop_access`; the `Loop` class is not part of the
source tree).  "While an implicit reaction runs, the property-read accessor
pushes the accessed name into a call-local recording buffer." -/
structure AccessLoop where
  prop_access : List (Nat × String)
deriving DecidableEq, Repr

/-- Modelled from the spec: `Loop.register_prop_access(component, name)`
records the access `(component, property name)` in the buffer. -/
def register_prop_access (lp : AccessLoop) (c : Nat) (name : String) :
    AccessLoop :=
  { lp with prop_access := lp.prop_access ++ [(c, name)] }

/-- Embedding of the getter installed by `ComponentJS.__create_property`:
register the access with the loop, then return the stored value
(`self['_' + name + '_value']`). -/
def prop_getter (lp : AccessLoop) (self : Nat) (name : String)
    (vals : String → PValue) : AccessLoop × PValue :=
  (register_prop_access lp self name, vals ("_" ++ name ++ "_value"))

/-- Embedding of the setter installed by `ComponentJS.__create_property`:
it unconditionally raises AttributeError. -/
def prop_setter (name : String) (_x : PValue) : Except PyErr PValue :=
  .error (.attributeError ("Cannot set property " ++ pyrepr name ++
    "; properties can only be mutated by actions."))

/-- Assigning to a declared property on a component instance: the JS
property descriptor from `__create_property` dispatches the assignment to
the setter, which raises, so no new store is produced. -/
def component_assign_prop (vals : String → PValue) (name : String)
    (x : PValue) : Except PyErr (String → PValue) := do
  let _ ← prop_setter name x
  .ok vals

/-- Running a straight-line reaction body that performs a sequence of
property reads (each read given as a `(component, property-name)` pair),
through `prop_getter`; `env c` is component `c`'s instance store.  Returns
the final loop state and the values each read produced. -/
def run_reads (env : Nat → String → PValue) :
    List (Nat × String) → AccessLoop → AccessLoop × List PValue
  | [], lp => (lp, [])
  | (c, n) :: rest, lp =>
    let (lp, v) := prop_getter lp c n (env c)
    let (lp, vs) := run_reads env rest lp
    (lp, v :: vs)

/-- Modelled from the spec: after an implicit reaction runs, the system
"subscribes to exactly that set for next time" — the subscription set is
derived from the recorded access buffer (deduplicated, first occurrence
kept). -/
def derive_implicit_connections (buffer : List (Nat × String)) :
    List (Nat × String) :=
  buffer.dedup

/-! ### Reactions pending on the loop, and batch delivery

The `Loop` class is not part of the source tree; the delivery step is
modelled from the spec (§4.4 step 2 and §4.1's side-effect clause). -/

/-- A reaction as the loop sees it: its name, its optional label, the event
types it is subscribed to on the component under consideration, and its
FIFO of pending events (of event type `ε`). -/
structure LoopReaction (ε : Type) where
  name : String
  label : Option String
  subscribed : List String
  queue : List ε
deriving DecidableEq, Repr

/-- The delivery sort key: the label if present, else the reaction name. -/
def sortKey {ε : Type} (r : LoopReaction ε) : String :=
  r.label.getD r.name

/-- Modelled from the spec (§4.1): after a mutation stores its value, the
synthesized property-change event is handed to every reaction currently
subscribed to that event type, appending to each one's pending queue. -/
def emit_notify {ε : Type} (rs : List (LoopReaction ε)) (etype : String)
    (ev : ε) : List (LoopReaction ε) :=
  rs.map (fun r =>
    if r.subscribed.contains etype then { r with queue := r.queue ++ [ev] }
    else r)

/-- Modelled from the spec (§4.4 step 2): once the action queue is empty,
the reactions flagged as having pending events are invoked in ascending
`(label-or-name)` key order, each exactly once with its entire pending
queue, and the queues are cleared.  The first component is the invocation
sequence (each entry still carrying the queue it is invoked with); the
second is the registry after clearing. -/
def process_reactions {ε : Type} (pending : List (LoopReaction ε)) :
    List (LoopReaction ε) × List (LoopReaction ε) :=
  let todo := (pending.filter (fun r => ¬ r.queue.isEmpty)).mergeSort
    (fun a b => decide (sortKey a ≤ sortKey b))
  (todo, pending.map (fun r => { r with queue := [] }))

/-- A property-change event as synthesized by the mutation primitive. -/
structure PCEvent where
  type : String
  source : Nat
  old_value : PValue
  new_value : PValue
  mutation : String
deriving DecidableEq, Repr

/-- Notify the registry of a whole sequence of property-change events, in
emission order. -/
def notify_all (rs : List (LoopReaction PCEvent)) :
    List PCEvent → List (LoopReaction PCEvent)
  | [] => rs
  | e :: evs => notify_all (emit_notify rs e.type e) evs

/-! ### Emitters — `ComponentJS.__create_emitter` (`_js.py` 289-301) -/

/-- The event produced by `Component.emit`: the emitted fields plus the
`type` and `source` attributes the component adds. -/
structure EmittedEvent where
  type : String
  source : Nat
  fields : List (String × PValue)
deriving DecidableEq, Repr

/-- A component's emit-relevant state: its id and the reactions connected
to it (with their subscriptions and pending queues). -/
structure EmitState where
  self : Nat
  handlers : List (LoopReaction EmittedEvent)
deriving DecidableEq, Repr

/-- Modelled from the spec: `Component.emit(type, fields)` (not part of the
source tree) attaches `source` and `type` to the event dict and hands the
event to every reaction subscribed to that event type, appending to each
pending queue. -/
def emit (st : EmitState) (type : String) (fields : List (String × PValue)) :
    EmitState :=
  let ev : EmittedEvent := ⟨type, st.self, fields⟩
  { st with handlers := emit_notify st.handlers type ev }

/-- Embedding of the wrapper from `ComponentJS.__create_emitter`:

    def func():
        ev = emitter_func.apply(self, arguments)
        if ev is not None:
            self.emit(name, ev)

`emitter_func` returns the event dict, or `none` for Python `None`. -/
def emitter_call (st : EmitState)
    (emitter_func : List PValue → Option (List (String × PValue)))
    (name : String) (args : List PValue) : EmitState :=
  match emitter_func args with
  | none => st
  | some ev => emit st name ev

/-! ### Connecting reactions at construction —
`ComponentJS._comp_init_reactions` (`_js.py` 201-216) -/

/-- A class-declared reaction: its name and `func._connection_strings or ()`. -/
structure ClassReaction where
  name : String
  connection_strings : List String
deriving DecidableEq, Repr

/-- Modelled from the spec: `Reaction.is_explicit` (the `Reaction` class is
not part of the source tree) — a reaction with an empty connection-string
list is implicit, one with connection strings is explicit. -/
def is_explicit (connection_strings : List String) : Bool :=
  ¬ connection_strings.isEmpty

/-- The synthetic event registered for implicit reactions at construction:
`dict(source=self, type='', label='')`. -/
structure SynthEvent where
  source : Nat
  type : String
  label : String
deriving DecidableEq, Repr

/-- First loop of `_comp_init_reactions`: create each class-declared
reaction and, when it is implicit, register it with the loop together with
one synthetic event.  The result is the sequence of
`loop.add_reaction_event(r, ev)` calls, as `(reaction name, event)`. -/
def initClassReactionsLoop (self : Nat) :
    List ClassReaction → List (String × SynthEvent)
  | [] => []
  | r :: rest =>
    (if is_explicit r.connection_strings = false then
      [(r.name, ⟨self, "", ""⟩)]
    else []) ++ initClassReactionsLoop self rest

/-- Second loop of `_comp_init_reactions`: likewise for the anonymous
reactions created for callable initial property values. -/
def initAnonReactionsLoop (self : Nat) :
    List AnonReaction → List (String × SynthEvent)
  | [] => []
  | r :: rest =>
    (if is_explicit r.connection_strings = false then
      [(r.name, ⟨self, "", ""⟩)]
    else []) ++ initAnonReactionsLoop self rest

/-- Embedding of `ComponentJS._comp_init_reactions`: the sequence of
reaction-event registrations it performs on the loop. -/
def _comp_init_reactions (self : Nat) (crs : List ClassReaction)
    (anons : List AnonReaction) : List (String × SynthEvent) :=
  initClassReactionsLoop self crs ++ initAnonReactionsLoop self anons

/-- The pending registry induced by the registrations of
`_comp_init_reactions`: each registered reaction has no label and one
pending synthetic event. -/
def pendingOfInit (regs : List (String × SynthEvent)) :
    List (LoopReaction SynthEvent) :=
  regs.map (fun p => ⟨p.1, none, [], [p.2]⟩)

/-! ### `HVLayout.set_from_flex_values` (`_hv.py` 334-367, identically in
`_box.py` 323-356)

The action body, with Python local-variable semantics: `size_sum` is a
local variable (it is assigned inside the `else` branch), so the read in
the condition `if size_sum == 0:` — which precedes every assignment to it —
raises UnboundLocalError.  Numbers are modelled as rationals. -/

/-- Reading a Python local variable: `none` means the name has not been
assigned yet on the current path, which raises UnboundLocalError. -/
def readLocal (v : Option Rat) (name : String) : Except PyErr Rat :=
  match v with
  | some x => .ok x
  | none => .error (.unboundLocalError
      ("local variable " ++ pyrepr name ++ " referenced before assignment"))

/-- A child widget, reduced to its `flex` value (a horizontal/vertical
pair). -/
structure HVChild where
  flex : Rat × Rat
deriving DecidableEq, Repr

/-- The state of an `HVLayout` as far as `set_from_flex_values` reads it:
the `mode` and `orientation` properties, the children, and the available
size reported by `_get_available_size()`. -/
structure HVLayoutState where
  mode : String
  orientation : String
  children : List HVChild
  available_size : Rat
deriving DecidableEq, Repr

/-- The `for i in range(len(sizes) - 1)` loop turning normalized sizes into
absolute divider positions (called on `sizes.take (sizes.length - 1)`). -/
def positionsLoop (available_size : Rat) : List Rat → Rat → List Rat
  | [], _ => []
  | s :: rest, pos =>
    let pos := pos + s
    let abs_pos := max 0 (min 1 pos) * available_size
    abs_pos :: positionsLoop available_size rest pos

/-- Embedding of `HVLayout.set_from_flex_values`.  Returns `none` for the
early `return` in box mode, and otherwise the divider positions the action
would hand on (to `emit('_rerender', ...)` in `_hv.py`, to
`_set_absolute_divider_positions` in `_box.py`).  The local `size_sum` has
not been assigned when the normalization condition reads it. -/
def set_from_flex_values (st : HVLayoutState) :
    Except PyErr (Option (List Rat)) :=
  if st.mode = "box" then .ok none
  else
    let dim : Nat := if st.orientation.contains 'h' then 0 else 1
    let sizes : List Rat :=
      st.children.map (fun w => if dim = 0 then w.flex.1 else w.flex.2)
    do
    -- `if size_sum == 0:` — no assignment to size_sum has happened yet
    let size_sum ← readLocal none "size_sum"
    let sizes :=
      if size_sum = 0 then sizes.map (fun _ => 1 / (sizes.length : Rat))
      else
        let size_sum := sizes.sum
        sizes.map (fun j => j / size_sum)
    let available_size := st.available_size
    let positions := positionsLoop available_size
      (sizes.take (sizes.length - 1)) 0
    .ok (some positions)

/-! ### Helper lemmas -/

/-- Bind on an `Except` error short-circuits. -/
@[simp] theorem except_bind_error {ε α β : Type} (e : ε) (f : α → Except ε β) :
    ((Except.error e : Except ε α) >>= f) = .error e := rfl

/-- Bind on an `Except` success applies the continuation. -/
@[simp] theorem except_bind_ok {ε α β : Type} (a : α) (f : α → Except ε β) :
    ((Except.ok a : Except ε α) >>= f) = f a := rfl

/-- The private-name encoding `_<name>_value` is injective. -/
theorem value_key_inj {s t : String}
    (h : "_" ++ s ++ "_value" = "_" ++ t ++ "_value") : s = t := by
  have h2 : ("_" ++ s ++ "_value").data = ("_" ++ t ++ "_value").data := by
    rw [h]
  simp only [String.data_append, List.append_assoc] at h2
  exact String.ext (List.append_cancel_right (List.append_cancel_left h2))

/-- In a list whose keys are distinct, filtering for the key of a member
yields exactly that member. -/
theorem filter_key_eq_of_nodup {α β : Type} [DecidableEq β] (key : α → β)
    (l : List α) (hn : (l.map key).Nodup) (x : α) (hx : x ∈ l) :
    l.filter (fun a => key a = key x) = [x] := by
  induction l with
  | nil => cases hx
  | cons a rest ih =>
    simp only [List.map_cons, List.nodup_cons] at hn
    rcases List.mem_cons.mp hx with rfl | hx'
    · have hrest : rest.filter (fun a => key a = key x) = [] := by
        apply List.filter_eq_nil_iff.mpr
        intro b hb hkey
        exact hn.1 (by
          rw [← of_decide_eq_true hkey]
          exact List.mem_map_of_mem key hb)
      simp [hrest]
    · have hne : key a ≠ key x := by
        intro hk
        exact hn.1 (hk ▸ List.mem_map_of_mem key hx')
      simp [hne, ih hn.2 hx']

/-- Filtering for a key absent from the list yields nothing. -/
theorem filter_key_eq_nil {α β : Type} [DecidableEq β] (key : α → β)
    (l : List α) (n : β) (hn : n ∉ l.map key) :
    l.filter (fun a => key a = n) = [] := by
  apply List.filter_eq_nil_iff.mpr
  intro b hb hkey
  exact hn (by rw [← of_decide_eq_true hkey]; exact List.mem_map_of_mem key hb)

/-! ### C3 -/

/-- C3: invoking a declared action runs the underlying function
synchronously if and only if the loop is already processing actions;
otherwise the invocation `(action, args)` is enqueued on the loop and the
call returns with no return value for the caller; when a synchronously run
action returns a non-None value a warning is logged and the call still
succeeds (it never raises). -/
theorem C3_action_dispatch (env : ActionEnv) (f : List PValue → PValue)
    (name : String) (args : List PValue) :
    ((action_call env f name args).ran_synchronously = env.processing)
  ∧ ((action_call env f name args).return_value = PValue.vnone)
  ∧ (env.processing = false →
      (action_call env f name args).env =
        { env with queue := env.queue ++ [(name, args)] })
  ∧ (env.processing = true →
      (action_call env f name args).env.queue = env.queue
    ∧ (action_call env f name args).env.warnings = env.warnings ++
        (if f args ≠ PValue.vnone then
          ["Action (" ++ name ++ ") is not supposed to return a value"]
        else [])) := by
  unfold action_call
  cases hp : env.processing with
  | false => simp
  | true =>
    by_cases hr : f args = PValue.vnone
    · simp [hr]
    · simp [hr]

/-- Witness for C3: with the loop idle the call is enqueued; with the loop
processing, a non-None-returning action logs the warning. -/
theorem C3_action_dispatch_witness :
    ((action_call ⟨false, [], []⟩ (fun _ => PValue.vnone) "do_bar" []).env =
      ⟨false, [("do_bar", [])], []⟩)
  ∧ ((action_call ⟨true, [], []⟩ (fun _ => PValue.vint 1) "do_bar" []).env.warnings
      = ["Action (do_bar) is not supposed to return a value"]) := by
  constructor
  · exact (C3_action_dispatch ⟨false, [], []⟩ (fun _ => PValue.vnone)
      "do_bar" []).2.2.1 rfl
  · rw [((C3_action_dispatch ⟨true, [], []⟩ (fun _ => PValue.vint 1)
      "do_bar" []).2.2.2 rfl).2]
    simp

/-! ### C7 -/

/-- C7: whenever the layout's mode is not `box`, `set_from_flex_values`
reaches the normalization condition `if size_sum == 0` with the local
variable `size_sum` still unassigned, so the read fails
(UnboundLocalError) and the action cannot complete normally. -/
theorem C7_set_from_flex_values_unbound (st : HVLayoutState)
    (h : st.mode ≠ "box") :
    set_from_flex_values st = .error (.unboundLocalError
      ("local variable " ++ pyrepr "size_sum" ++
        " referenced before assignment")) := by
  unfold set_from_flex_values
  rw [if_neg h]
  rfl

/-- Witness for C7: a split-mode layout with two children of nonzero total
flex hits the unbound read. -/
theorem C7_set_from_flex_values_unbound_witness :
    set_from_flex_values ⟨"split", "h", [⟨(1, 1)⟩, ⟨(2, 1)⟩], 100⟩ =
      .error (.unboundLocalError ("local variable " ++ pyrepr "size_sum" ++
        " referenced before assignment")) :=
  C7_set_from_flex_values_unbound ⟨"split", "h", [⟨(1, 1)⟩, ⟨(2, 1)⟩], 100⟩
    (by decide)

/-! ### C10 -/

/-- Python's `isinstance(s, str) and len(s)` test on a reaction argument. -/
def RArg.isNonemptyStr : RArg → Bool
  | .str s => ¬ s.length = 0
  | _ => false

/-- A successful `verify_strings` run returns one string per argument. -/
theorem verify_strings_ok_length {l : List RArg} {ss : List String}
    (h : verify_strings l = .ok ss) : ss.length = l.length := by
  induction l generalizing ss with
  | nil =>
    simp only [verify_strings] at h
    cases h
    rfl
  | cons a rest ih =>
    cases a with
    | str s =>
      simp only [verify_strings] at h
      split at h
      · cases h
      · cases hrest : verify_strings rest with
        | error e => rw [hrest] at h; cases h
        | ok ss' =>
          rw [hrest] at h
          simp only [except_bind_ok] at h
          cases h
          simp [ih hrest]
    | func fid => simp only [verify_strings] at h; cases h
    | other => simp only [verify_strings] at h; cases h

/-- If any argument in the list is not a nonempty string, `verify_strings`
raises ValueError. -/
theorem verify_strings_bad {l : List RArg}
    (h : ∃ a ∈ l, a.isNonemptyStr = false) :
    verify_strings l =
      .error (.valueError "Connection string must be nonempty strings.") := by
  induction l with
  | nil => rcases h with ⟨a, ha, _⟩; cases ha
  | cons a rest ih =>
    cases a with
    | str s =>
      by_cases hs : s.length = 0
      · simp only [verify_strings]
        rw [if_pos hs]
      · rcases h with ⟨b, hb, hbad⟩
        rcases List.mem_cons.mp hb with rfl | hb'
        · simp [RArg.isNonemptyStr, hs] at hbad
        · simp only [verify_strings]
          rw [if_neg hs, ih ⟨b, hb', hbad⟩]
          rfl
    | func fid => simp only [verify_strings]
    | other => simp only [verify_strings]

/-- C10: the runtime `Component.reaction()` method (JS variant) needs a
callable plus at least one connection string: fewer than two arguments is a
RuntimeError, no callable in first or last position is a TypeError, any
remaining argument that is not a nonempty string is a ValueError, and a
successful call always carries at least one connection string — an ad hoc
implicit reaction cannot be created this way. -/
theorem C10_reaction_method (args : List RArg) :
    (args.length < 2 → reaction_method args = .error (.runtimeError
      "Component.reaction() (js) needs a function and one or more connection strings."))
  ∧ (2 ≤ args.length →
      (∀ x, args.head? = some x → x.callable = false) →
      (∀ x, args.getLast? = some x → x.callable = false) →
      reaction_method args =
        .error (.typeError "Component.reaction() requires a callable."))
  ∧ (∀ fid rest, args = .func fid :: rest →
      (∃ a ∈ rest, a.isNonemptyStr = false) →
      reaction_method args =
        .error (.valueError "Connection string must be nonempty strings."))
  ∧ (∀ fid, (∀ x, args.head? = some x → x.callable = false) →
      args.getLast? = some (RArg.func fid) →
      (∃ a ∈ args.dropLast, a.isNonemptyStr = false) →
      reaction_method args =
        .error (.valueError "Connection string must be nonempty strings."))
  ∧ (∀ fid ss, reaction_method args = .ok (fid, ss) → 1 ≤ ss.length) := by
  refine ⟨?_, ?_, ?_, ?_, ?_⟩
  · intro hlen
    unfold reaction_method
    rw [if_pos hlen]
  · intro hlen hhead hlast
    unfold reaction_method
    rw [if_neg (by omega)]
    have hh : ∀ fid, args.head? ≠ some (RArg.func fid) := by
      intro fid hc
      have := hhead _ hc
      simp [RArg.callable] at this
    have hl : ∀ fid, args.getLast? ≠ some (RArg.func fid) := by
      intro fid hc
      have := hlast _ hc
      simp [RArg.callable] at this
    cases hhd : args.head? with
    | none => cases hls : args.getLast? with
      | none => rfl
      | some x => cases x with
        | func fid => exact absurd hls (hl fid)
        | str s => rfl
        | other => rfl
    | some x => cases x with
      | func fid => exact absurd hhd (hh fid)
      | str s =>
        cases hls : args.getLast? with
        | none => rfl
        | some y => cases y with
          | func fid => exact absurd hls (hl fid)
          | str t => rfl
          | other => rfl
      | other =>
        cases hls : args.getLast? with
        | none => rfl
        | some y => cases y with
          | func fid => exact absurd hls (hl fid)
          | str t => rfl
          | other => rfl
  · rintro fid rest rfl hbad
    have hlen : ¬ ((RArg.func fid :: rest).length < 2) := by
      rcases hbad with ⟨a, ha, _⟩
      have := List.length_pos_of_mem ha
      simp only [List.length_cons]
      omega
    unfold reaction_method
    rw [if_neg hlen]
    simp only [List.head?_cons, List.tail_cons]
    rw [verify_strings_bad hbad]
    rfl
  · intro fid hhead hlast hbad
    have hlen2 : 2 ≤ args.length := by
      rcases hbad with ⟨a, ha, _⟩
      have h1 := List.length_pos_of_mem ha
      have h2 : args.dropLast.length = args.length - 1 := by simp
      omega
    unfold reaction_method
    rw [if_neg (by omega)]
    cases hhd : args.head? with
    | none =>
      cases args with
      | nil => simp at hlen2
      | cons a l => simp at hhd
    | some x =>
      have hxc := hhead x hhd
      cases x with
      | func g => simp [RArg.callable] at hxc
      | str s =>
        rw [hlast, verify_strings_bad hbad]
        rfl
      | other =>
        rw [hlast, verify_strings_bad hbad]
        rfl
  · intro fid ss hok
    unfold reaction_method at hok
    split at hok
    · cases hok
    · rename_i hlen
      cases hhd : args.head? with
      | none =>
        rw [hhd] at hok
        cases hls : args.getLast? with
        | none => rw [hls] at hok; cases hok
        | some y =>
          rw [hls] at hok
          cases y with
          | func g =>
            cases hv : verify_strings args.dropLast with
            | error e => rw [hv] at hok; cases hok
            | ok ss' =>
              rw [hv] at hok
              simp only [except_bind_ok] at hok
              cases hok
              have := verify_strings_ok_length hv
              have hlen2 : args.dropLast.length = args.length - 1 := by
                simp
              omega
          | str s => cases hok
          | other => cases hok
      | some x =>
        rw [hhd] at hok
        cases x with
        | func g =>
          cases hv : verify_strings args.tail with
          | error e => rw [hv] at hok; cases hok
          | ok ss' =>
            rw [hv] at hok
            simp only [except_bind_ok] at hok
            cases hok
            have := verify_strings_ok_length hv
            have hlen2 : args.tail.length = args.length - 1 := by
              simp
            omega
        | str s =>
          cases hls : args.getLast? with
          | none => rw [hls] at hok; cases hok
          | some y =>
            rw [hls] at hok
            cases y with
            | func g =>
              cases hv : verify_strings args.dropLast with
              | error e => rw [hv] at hok; cases hok
              | ok ss' =>
                rw [hv] at hok
                simp only [except_bind_ok] at hok
                cases hok
                have := verify_strings_ok_length hv
                have hlen2 : args.dropLast.length = args.length - 1 := by
                  simp
                omega
            | str t => cases hok
            | other => cases hok
        | other =>
          cases hls : args.getLast? with
          | none => rw [hls] at hok; cases hok
          | some y =>
            rw [hls] at hok
            cases y with
            | func g =>
              cases hv : verify_strings args.dropLast with
              | error e => rw [hv] at hok; cases hok
              | ok ss' =>
                rw [hv] at hok
                simp only [except_bind_ok] at hok
                cases hok
                have := verify_strings_ok_length hv
                have hlen2 : args.dropLast.length = args.length - 1 := by
                  simp
                omega
            | str t => cases hok
            | other => cases hok

/-- Witness for C10: a one-argument call, a two-string call with no
callable, a callable followed by an empty string, an empty string followed
by a callable, and a well-formed call returning one connection string. -/
theorem C10_reaction_method_witness :
    (reaction_method [RArg.func 0] = .error (.runtimeError
      "Component.reaction() (js) needs a function and one or more connection strings."))
  ∧ (reaction_method [RArg.str "foo", RArg.str "bar"] =
      .error (.typeError "Component.reaction() requires a callable."))
  ∧ (reaction_method [RArg.func 0, RArg.str ""] =
      .error (.valueError "Connection string must be nonempty strings."))
  ∧ (reaction_method [RArg.str "", RArg.func 0] =
      .error (.valueError "Connection string must be nonempty strings."))
  ∧ (∀ ss, reaction_method [RArg.func 0, RArg.str "foo"] = .ok (0, ss) →
      1 ≤ ss.length) := by
  refine ⟨?_, ?_, ?_, ?_, ?_⟩
  · exact (C10_reaction_method [RArg.func 0]).1 (by decide)
  · exact (C10_reaction_method [RArg.str "foo", RArg.str "bar"]).2.1
      (by decide) (by intro x hx; cases hx; rfl) (by intro x hx; cases hx; rfl)
  · exact (C10_reaction_method [RArg.func 0, RArg.str ""]).2.2.1 0 [RArg.str ""]
      rfl ⟨RArg.str "", by simp, by decide⟩
  · exact (C10_reaction_method [RArg.str "", RArg.func 0]).2.2.2.1 0
      (by intro x hx; cases hx; rfl) rfl ⟨RArg.str "", by simp, by decide⟩
  · intro ss hok
    exact (C10_reaction_method [RArg.func 0, RArg.str "foo"]).2.2.2.2 0 ss hok

/-! ### C5 -/

/-- Characterization of a straight-line read sequence: each read appends
its pair to the buffer in order and returns the currently stored value. -/
theorem run_reads_eq (env : Nat → String → PValue)
    (reads : List (Nat × String)) (lp : AccessLoop) :
    run_reads env reads lp =
      (⟨lp.prop_access ++ reads⟩,
       reads.map (fun p => env p.1 ("_" ++ p.2 ++ "_value"))) := by
  induction reads generalizing lp with
  | nil => simp [run_reads]
  | cons r rest ih =>
    obtain ⟨c, n⟩ := r
    simp [run_reads, prop_getter, register_prop_access, ih]

/-- C5: every read of a declared property through the public accessor first
registers the access `(component, property name)` with the loop and then
returns the currently stored value; consequently a body of reads records
exactly its accesses in order, each returning the stored value, and the
implicit-reaction subscription set derived from the recording is exactly
the set of accessed pairs. -/
theorem C5_prop_access_tracking (lp : AccessLoop) (self : Nat) (name : String)
    (vals : String → PValue) (env : Nat → String → PValue)
    (reads : List (Nat × String)) :
    (prop_getter lp self name vals =
      (⟨lp.prop_access ++ [(self, name)]⟩, vals ("_" ++ name ++ "_value")))
  ∧ ((run_reads env reads ⟨[]⟩).1.prop_access = reads)
  ∧ ((run_reads env reads ⟨[]⟩).2 =
      reads.map (fun p => env p.1 ("_" ++ p.2 ++ "_value")))
  ∧ (∀ p, p ∈ derive_implicit_connections
        ((run_reads env reads ⟨[]⟩).1.prop_access) ↔ p ∈ reads) := by
  refine ⟨rfl, ?_, ?_, ?_⟩
  · rw [run_reads_eq]
    simp
  · rw [run_reads_eq]
  · intro p
    rw [run_reads_eq]
    simp [derive_implicit_connections]

/-! ### C6 -/

/-- If some given name is undeclared and every callable entry has its
setter action, the given-values loop fails with AttributeError, with the
distinct attribute message when the name is a declared attribute. -/
theorem initGivenLoop_bad (cs : CompSpec) (self : String)
    (pv : List (String × InitValue))
    (hfn : ∀ p f, (p, InitValue.func f) ∈ pv → ("set_" ++ p) ∈ cs.actions)
    (hbad : ∃ e ∈ pv, e.1 ∉ cs.properties) :
    ∀ vals anons evs, ∃ n, n ∉ cs.properties ∧ (∃ v, (n, v) ∈ pv) ∧
      initGivenLoop cs self pv vals anons evs = .error (.attributeError
        (if n ∈ cs.attributes then
          self ++ "." ++ n ++ " is an attribute, not a property"
        else self ++ " does not have property " ++ n ++ ".")) := by
  induction pv with
  | nil => rcases hbad with ⟨e, he, _⟩; cases he
  | cons kv rest ih =>
    obtain ⟨k, v⟩ := kv
    intro vals anons evs
    by_cases hk : k ∈ cs.properties
    · have hbad' : ∃ e ∈ rest, e.1 ∉ cs.properties := by
        rcases hbad with ⟨e, he, hne⟩
        rcases List.mem_cons.mp he with rfl | he'
        · exact absurd hk hne
        · exact ⟨e, he', hne⟩
      have hfn' : ∀ p f, (p, InitValue.func f) ∈ rest →
          ("set_" ++ p) ∈ cs.actions := by
        intro p f hpf
        exact hfn p f (List.mem_cons_of_mem _ hpf)
      cases v with
      | lit w =>
        rcases ih hfn' hbad'
          (updateStore vals ("_" ++ k ++ "_value") (cs.validate k w)) anons
          (evs ++ [⟨k, cs.validate k w, cs.validate k w, "set"⟩]) with
          ⟨n, hn, hv, heq⟩
        refine ⟨n, hn, ?_, ?_⟩
        · rcases hv with ⟨w', hw'⟩
          exact ⟨w', List.mem_cons_of_mem _ hw'⟩
        · rw [← heq]
          simp only [initGivenLoop]
          rw [if_pos hk]
      | func f =>
        have hset : ("set_" ++ k) ∈ cs.actions := hfn k f (List.mem_cons_self _ _)
        rcases ih hfn' hbad' vals
          (anons ++ [⟨"auto-" ++ k, [], k, f⟩]) evs with ⟨n, hn, hv, heq⟩
        refine ⟨n, hn, ?_, ?_⟩
        · rcases hv with ⟨w', hw'⟩
          exact ⟨w', List.mem_cons_of_mem _ hw'⟩
        · rw [← heq]
          simp only [initGivenLoop]
          rw [if_pos hk]
          unfold _comp_make_implicit_setter
          rw [if_pos hset]
          rfl
    · refine ⟨k, hk, ⟨v, List.mem_cons_self _ _⟩, ?_⟩
      simp only [initGivenLoop]
      rw [if_neg hk]
      by_cases ha : k ∈ cs.attributes
      · rw [if_pos ha, if_pos ha]
      · rw [if_neg ha, if_neg ha]

/-- C6: an undeclared name in the constructor keywords fails with
AttributeError (with a distinct message when the name is a declared
attribute), and assigning directly to a declared property fails with
AttributeError without producing an updated store. -/
theorem C6_attribute_errors (cs : CompSpec) (self : String)
    (pv : List (String × InitValue))
    (hfn : ∀ p f, (p, InitValue.func f) ∈ pv → ("set_" ++ p) ∈ cs.actions)
    (hbad : ∃ e ∈ pv, e.1 ∉ cs.properties)
    (vals : String → PValue) (name : String) (x : PValue) :
    (∃ n, n ∉ cs.properties ∧ (∃ v, (n, v) ∈ pv) ∧
      _comp_init_property_values cs self pv = .error (.attributeError
        (if n ∈ cs.attributes then
          self ++ "." ++ n ++ " is an attribute, not a property"
        else self ++ " does not have property " ++ n ++ ".")))
  ∧ (component_assign_prop vals name x = .error (.attributeError
      ("Cannot set property " ++ pyrepr name ++
        "; properties can only be mutated by actions."))) := by
  constructor
  · unfold _comp_init_property_values
    rcases hd : initDefaultsLoop cs (pv.map Prod.fst) cs.properties cs.defaults
      with ⟨vals0, evs0⟩
    exact initGivenLoop_bad cs self pv hfn hbad vals0 [] evs0
  · rfl

/-- A tiny concrete component class used by witnesses: one property `foo`
(with `set_foo` action), one attribute `id`, defaults `vnone`, identity
validators. -/
def csW : CompSpec :=
  ⟨["foo"], ["id"], ["set_foo"], fun _ => PValue.vnone, fun _ v => v⟩

/-- Witness for C6: constructing with the attribute `id` as a keyword hits
the attribute-specific AttributeError, and assigning to `foo` hits the
read-only AttributeError. -/
theorem C6_attribute_errors_witness :
    (_comp_init_property_values csW "MyComponent1"
        [("id", InitValue.lit PValue.vnone)] =
      .error (.attributeError "MyComponent1.id is an attribute, not a property"))
  ∧ (component_assign_prop (fun _ => PValue.vnone) "foo" (PValue.vint 1) =
      .error (.attributeError ("Cannot set property " ++ pyrepr "foo" ++
        "; properties can only be mutated by actions."))) := by
  obtain ⟨⟨n, hn, ⟨v, hv⟩, heq⟩, hassign⟩ :=
    C6_attribute_errors csW "MyComponent1" [("id", InitValue.lit PValue.vnone)]
      (by intro p f hpf; simp at hpf) ⟨("id", InitValue.lit PValue.vnone),
        by simp, by decide⟩ (fun _ => PValue.vnone) "foo" (PValue.vint 1)
  refine ⟨?_, hassign⟩
  simp only [List.mem_singleton, Prod.mk.injEq] at hv
  rw [heq, if_pos (by rw [hv.1]; decide)]
  rw [hv.1]
  rfl

/-! ### C9 -/

/-- C9: invoking an emitter calls the underlying function and then emits an
event of the emitter's name iff the result is not None: a None result
leaves the component state — in particular every reaction's pending queue —
unchanged, while a dict result appends the event (typed with the emitter's
name) to exactly the subscribed reactions' queues. -/
theorem C9_emitter_emits_iff_not_none (st : EmitState)
    (f : List PValue → Option (List (String × PValue)))
    (name : String) (args : List PValue) :
    (f args = none → emitter_call st f name args = st)
  ∧ (∀ fields, f args = some fields →
      emitter_call st f name args = ⟨st.self, st.handlers.map (fun r =>
        if r.subscribed.contains name then
          { r with queue := r.queue ++ [⟨name, st.self, fields⟩] }
        else r)⟩) := by
  constructor
  · intro h
    unfold emitter_call
    rw [h]
  · intro fields h
    unfold emitter_call
    rw [h]
    rfl

/-- Witness for C9: a None-returning emitter changes nothing; a
dict-returning emitter notifies the subscribed reaction and not the
other. -/
theorem C9_emitter_emits_iff_not_none_witness :
    (emitter_call ⟨7, [⟨"r1", none, ["mouse_down"], []⟩]⟩
        (fun _ => none) "mouse_down" [] = ⟨7, [⟨"r1", none, ["mouse_down"], []⟩]⟩)
  ∧ (emitter_call ⟨7, [⟨"r1", none, ["mouse_down"], []⟩,
        ⟨"r2", none, ["other"], []⟩]⟩
        (fun _ => some [("button", PValue.vint 1)]) "mouse_down" [] =
      ⟨7, [⟨"r1", none, ["mouse_down"],
            [⟨"mouse_down", 7, [("button", PValue.vint 1)]⟩]⟩,
          ⟨"r2", none, ["other"], []⟩]⟩) := by
  constructor
  · exact (C9_emitter_emits_iff_not_none _ _ _ _).1 rfl
  · rw [(C9_emitter_emits_iff_not_none _ _ _ _).2 [("button", PValue.vint 1)] rfl]
    rfl

/-! ### C2 / C4: characterizing the two loops of
`_comp_init_property_values` -/

/-- Private-name keys of distinct properties are distinct. -/
theorem value_key_ne {s t : String} (h : s ≠ t) :
    ("_" ++ s ++ "_value") ≠ ("_" ++ t ++ "_value") :=
  fun hk => h (value_key_inj hk)

/-- The defaults loop leaves untouched the slot of any property name not in
the processed list. -/
theorem initDefaultsLoop_store_notmem (cs : CompSpec) (pvkeys : List String)
    (name : String) :
    ∀ (props : List String) (vals : String → PValue), name ∉ props →
      (initDefaultsLoop cs pvkeys props vals).1 ("_" ++ name ++ "_value") =
        vals ("_" ++ name ++ "_value") := by
  intro props
  induction props with
  | nil => intro vals _; rfl
  | cons p rest ih =>
    intro vals hnm
    have hp : p ≠ name := fun h => hnm (h ▸ List.mem_cons_self _ _)
    have hrest : name ∉ rest := fun h => hnm (List.mem_cons_of_mem _ h)
    have hupd : updateStore vals ("_" ++ p ++ "_value")
        (cs.validate p (vals ("_" ++ p ++ "_value"))) ("_" ++ name ++ "_value")
        = vals ("_" ++ name ++ "_value") := by
      unfold updateStore
      rw [if_neg (value_key_ne (fun h => hp h.symm))]
    simp only [initDefaultsLoop]
    rcases he : initDefaultsLoop cs pvkeys rest
      (updateStore vals ("_" ++ p ++ "_value")
        (cs.validate p (vals ("_" ++ p ++ "_value")))) with ⟨vfin, evs⟩
    have h2 := ih (updateStore vals ("_" ++ p ++ "_value")
      (cs.validate p (vals ("_" ++ p ++ "_value")))) hrest
    rw [he, hupd] at h2
    dsimp only at h2
    by_cases hc : p ∈ pvkeys <;> simp [hc, h2]

/-- On a duplicate-free property list, the defaults loop stores the
validated class default for each declared property. -/
theorem initDefaultsLoop_store_mem (cs : CompSpec) (pvkeys : List String)
    (name : String) :
    ∀ (props : List String) (vals : String → PValue), name ∈ props →
      props.Nodup →
      (initDefaultsLoop cs pvkeys props vals).1 ("_" ++ name ++ "_value") =
        cs.validate name (vals ("_" ++ name ++ "_value")) := by
  intro props
  induction props with
  | nil => intro vals h _; cases h
  | cons p rest ih =>
    intro vals hmem hnd
    simp only [List.nodup_cons] at hnd
    simp only [initDefaultsLoop]
    rcases List.mem_cons.mp hmem with rfl | hmem'
    · have hupd : updateStore vals ("_" ++ name ++ "_value")
          (cs.validate name (vals ("_" ++ name ++ "_value")))
          ("_" ++ name ++ "_value")
          = cs.validate name (vals ("_" ++ name ++ "_value")) := by
        unfold updateStore
        rw [if_pos rfl]
      rcases he : initDefaultsLoop cs pvkeys rest
        (updateStore vals ("_" ++ name ++ "_value")
          (cs.validate name (vals ("_" ++ name ++ "_value")))) with ⟨vfin, evs⟩
      have h2 := initDefaultsLoop_store_notmem cs pvkeys name rest
        (updateStore vals ("_" ++ name ++ "_value")
          (cs.validate name (vals ("_" ++ name ++ "_value")))) hnd.1
      rw [he, hupd] at h2
      dsimp only at h2
      by_cases hc : name ∈ pvkeys <;> simp [hc, h2]
    · have hp : p ≠ name := fun h => hnd.1 (h ▸ hmem')
      have hupd : updateStore vals ("_" ++ p ++ "_value")
          (cs.validate p (vals ("_" ++ p ++ "_value"))) ("_" ++ name ++ "_value")
          = vals ("_" ++ name ++ "_value") := by
        unfold updateStore
        rw [if_neg (value_key_ne (fun h => hp h.symm))]
      rcases he : initDefaultsLoop cs pvkeys rest
        (updateStore vals ("_" ++ p ++ "_value")
          (cs.validate p (vals ("_" ++ p ++ "_value")))) with ⟨vfin, evs⟩
      have h2 := ih (updateStore vals ("_" ++ p ++ "_value")
        (cs.validate p (vals ("_" ++ p ++ "_value")))) hmem' hnd.2
      rw [he, hupd] at h2
      dsimp only at h2
      by_cases hc : p ∈ pvkeys <;> simp [hc, h2]

/-- The defaults loop emits no event typed with a name outside the
processed list. -/
theorem initDefaultsLoop_events_notmem (cs : CompSpec) (pvkeys : List String)
    (name : String) :
    ∀ (props : List String) (vals : String → PValue), name ∉ props →
      ((initDefaultsLoop cs pvkeys props vals).2).filter
        (fun e => e.type = name) = [] := by
  intro props
  induction props with
  | nil => intro vals _; rfl
  | cons p rest ih =>
    intro vals hnm
    have hp : p ≠ name := fun h => hnm (h ▸ List.mem_cons_self _ _)
    have hrest : name ∉ rest := fun h => hnm (List.mem_cons_of_mem _ h)
    simp only [initDefaultsLoop]
    rcases he : initDefaultsLoop cs pvkeys rest
      (updateStore vals ("_" ++ p ++ "_value")
        (cs.validate p (vals ("_" ++ p ++ "_value")))) with ⟨vfin, evs⟩
    have h2 := ih (updateStore vals ("_" ++ p ++ "_value")
      (cs.validate p (vals ("_" ++ p ++ "_value")))) hrest
    rw [he] at h2
    dsimp only at h2
    by_cases hc : p ∈ pvkeys <;> simp [hc, h2, List.filter_cons, hp]

/-- On a duplicate-free property list, the defaults loop emits exactly one
event per declared property not given at construction — with `old_value`
and `new_value` both the validated default — and none for a property that
was given. -/
theorem initDefaultsLoop_events_mem (cs : CompSpec) (pvkeys : List String)
    (name : String) :
    ∀ (props : List String) (vals : String → PValue), name ∈ props →
      props.Nodup →
      ((initDefaultsLoop cs pvkeys props vals).2).filter
        (fun e => e.type = name) =
        if name ∈ pvkeys then []
        else [⟨name, cs.validate name (vals ("_" ++ name ++ "_value")),
              cs.validate name (vals ("_" ++ name ++ "_value")), "set"⟩] := by
  intro props
  induction props with
  | nil => intro vals h _; cases h
  | cons p rest ih =>
    intro vals hmem hnd
    simp only [List.nodup_cons] at hnd
    simp only [initDefaultsLoop]
    rcases List.mem_cons.mp hmem with rfl | hmem'
    · rcases he : initDefaultsLoop cs pvkeys rest
        (updateStore vals ("_" ++ name ++ "_value")
          (cs.validate name (vals ("_" ++ name ++ "_value")))) with ⟨vfin, evs⟩
      have h2 := initDefaultsLoop_events_notmem cs pvkeys name rest
        (updateStore vals ("_" ++ name ++ "_value")
          (cs.validate name (vals ("_" ++ name ++ "_value")))) hnd.1
      rw [he] at h2
      dsimp only at h2
      by_cases hc : name ∈ pvkeys <;> simp [hc, h2, List.filter_cons]
    · have hp : p ≠ name := fun h => hnd.1 (h ▸ hmem')
      have hupd : updateStore vals ("_" ++ p ++ "_value")
          (cs.validate p (vals ("_" ++ p ++ "_value"))) ("_" ++ name ++ "_value")
          = vals ("_" ++ name ++ "_value") := by
        unfold updateStore
        rw [if_neg (value_key_ne (fun h => hp h.symm))]
      rcases he : initDefaultsLoop cs pvkeys rest
        (updateStore vals ("_" ++ p ++ "_value")
          (cs.validate p (vals ("_" ++ p ++ "_value")))) with ⟨vfin, evs⟩
      have h2 := ih (updateStore vals ("_" ++ p ++ "_value")
        (cs.validate p (vals ("_" ++ p ++ "_value")))) hmem' hnd.2
      rw [he, hupd] at h2
      dsimp only at h2
      by_cases hc : p ∈ pvkeys <;> simp [hc, h2, List.filter_cons, hp]

/-- If no literal entry for `name` occurs among the given values, the
given-values loop changes neither `name`'s slot nor its events. -/
theorem initGivenLoop_nolit (cs : CompSpec) (self : String) (name : String) :
    ∀ (pv : List (String × InitValue)) (vals : String → PValue)
      (anons : List AnonReaction) (evs : List InitEvent) (res : InitResult),
      (∀ w, (name, InitValue.lit w) ∉ pv) →
      initGivenLoop cs self pv vals anons evs = .ok res →
      res.values ("_" ++ name ++ "_value") = vals ("_" ++ name ++ "_value")
    ∧ res.events.filter (fun e => e.type = name) =
        evs.filter (fun e => e.type = name) := by
  intro pv
  induction pv with
  | nil =>
    intro vals anons evs res _ hok
    simp only [initGivenLoop] at hok
    cases hok
    exact ⟨rfl, rfl⟩
  | cons kv rest ih =>
    intro vals anons evs res hnl hok
    obtain ⟨k, v⟩ := kv
    simp only [initGivenLoop] at hok
    split at hok
    · rename_i hk
      have hnl' : ∀ w, (name, InitValue.lit w) ∉ rest := by
        intro w hw
        exact hnl w (List.mem_cons_of_mem _ hw)
      cases v with
      | lit w =>
        have hkname : k ≠ name := by
          rintro rfl
          exact hnl w (List.mem_cons_self _ _)
        have h := ih (updateStore vals ("_" ++ k ++ "_value") (cs.validate k w))
          anons (evs ++ [⟨k, cs.validate k w, cs.validate k w, "set"⟩]) res
          hnl' hok
        refine ⟨?_, ?_⟩
        · rw [h.1]
          unfold updateStore
          rw [if_neg (value_key_ne (fun hh => hkname hh.symm))]
        · rw [h.2, List.filter_append]
          simp [List.filter_cons, hkname]
      | func f =>
        try dsimp only at hok
        cases hms : _comp_make_implicit_setter cs self k f anons with
        | error e => rw [hms] at hok; cases hok
        | ok anons' =>
          rw [hms] at hok
          simp only [except_bind_ok] at hok
          exact ih vals anons' evs res hnl' hok
    · split at hok <;> cases hok

/-- If `name` is given a literal value and the given keys are
duplicate-free, the given-values loop appends exactly one event for `name`,
with `old_value` and `new_value` both the validated given value. -/
theorem initGivenLoop_lit (cs : CompSpec) (self : String) (name : String)
    (v : PValue) :
    ∀ (pv : List (String × InitValue)) (vals : String → PValue)
      (anons : List AnonReaction) (evs : List InitEvent) (res : InitResult),
      (pv.map Prod.fst).Nodup →
      (name, InitValue.lit v) ∈ pv →
      initGivenLoop cs self pv vals anons evs = .ok res →
      res.events.filter (fun e => e.type = name) =
        evs.filter (fun e => e.type = name) ++
          [⟨name, cs.validate name v, cs.validate name v, "set"⟩] := by
  intro pv
  induction pv with
  | nil => intro vals anons evs res _ hmem _; cases hmem
  | cons kv rest ih =>
    intro vals anons evs res hnd hmem hok
    obtain ⟨k, w⟩ := kv
    simp only [List.map_cons, List.nodup_cons] at hnd
    rcases List.mem_cons.mp hmem with heq | hmem'
    · cases heq
      simp only [initGivenLoop] at hok
      split at hok
      · rename_i hk
        have hnl' : ∀ u, (name, InitValue.lit u) ∉ rest := by
          intro u hu
          exact hnd.1 (List.mem_map_of_mem Prod.fst hu)
        have h := initGivenLoop_nolit cs self name rest _ anons _ res hnl' hok
        rw [h.2, List.filter_append]
        simp [List.filter_cons]
      · split at hok <;> cases hok
    · have hkname : k ≠ name := by
        rintro rfl
        exact hnd.1 (List.mem_map_of_mem Prod.fst hmem')
      simp only [initGivenLoop] at hok
      split at hok
      · rename_i hk
        cases w with
        | lit u =>
          have h := ih (updateStore vals ("_" ++ k ++ "_value")
            (cs.validate k u)) anons
            (evs ++ [⟨k, cs.validate k u, cs.validate k u, "set"⟩]) res
            hnd.2 hmem' hok
          rw [h, List.filter_append]
          simp [List.filter_cons, hkname]
        | func f =>
          try dsimp only at hok
          cases hms : _comp_make_implicit_setter cs self k f anons with
          | error e => rw [hms] at hok; cases hok
          | ok anons' =>
            rw [hms] at hok
            simp only [except_bind_ok] at hok
            exact ih vals anons' evs res hnd.2 hmem' hok
      · split at hok <;> cases hok

/-- If `name` is given a callable and the given keys are duplicate-free,
the given-values loop appends exactly one anonymous reaction targeting
`name`: the implicit setter `auto-<name>` with no connection strings. -/
theorem initGivenLoop_anons (cs : CompSpec) (self : String) (name : String)
    (fid : Nat) :
    ∀ (pv : List (String × InitValue)) (vals : String → PValue)
      (anons : List AnonReaction) (evs : List InitEvent) (res : InitResult),
      (pv.map Prod.fst).Nodup →
      (name, InitValue.func fid) ∈ pv →
      initGivenLoop cs self pv vals anons evs = .ok res →
      res.anons.filter (fun a => a.target_prop = name) =
        anons.filter (fun a => a.target_prop = name) ++
          [⟨"auto-" ++ name, [], name, fid⟩] := by
  intro pv
  induction pv with
  | nil => intro vals anons evs res _ hmem _; cases hmem
  | cons kv rest ih =>
    intro vals anons evs res hnd hmem hok
    obtain ⟨k, w⟩ := kv
    simp only [List.map_cons, List.nodup_cons] at hnd
    rcases List.mem_cons.mp hmem with heq | hmem'
    · cases heq
      simp only [initGivenLoop] at hok
      split at hok
      · rename_i hk
        try dsimp only at hok
        cases hms : _comp_make_implicit_setter cs self name fid anons with
        | error e => rw [hms] at hok; cases hok
        | ok anons' =>
          rw [hms] at hok
          simp only [except_bind_ok] at hok
          unfold _comp_make_implicit_setter at hms
          split at hms
          · cases hms
            have hnolistmore : ∀ u, (name, InitValue.func u) ∉ rest ∧
                (name, InitValue.lit (PValue.vint 0)) ∉ rest := by
              intro u
              constructor <;> intro hu <;>
                exact hnd.1 (List.mem_map_of_mem Prod.fst hu)
            -- no entry in `rest` has key `name`, so no later anon targets it
            have hanons : ∀ (rest2 : List (String × InitValue))
                (vals2 : String → PValue) (anons2 : List AnonReaction)
                (evs2 : List InitEvent) (res2 : InitResult),
                name ∉ rest2.map Prod.fst →
                initGivenLoop cs self rest2 vals2 anons2 evs2 = .ok res2 →
                res2.anons.filter (fun a => a.target_prop = name) =
                  anons2.filter (fun a => a.target_prop = name) := by
              intro rest2
              induction rest2 with
              | nil =>
                intro vals2 anons2 evs2 res2 _ hok2
                simp only [initGivenLoop] at hok2
                cases hok2
                rfl
              | cons kv2 rest3 ih3 =>
                intro vals2 anons2 evs2 res2 hnm hok2
                obtain ⟨k2, w2⟩ := kv2
                simp only [List.map_cons, List.mem_cons, not_or] at hnm
                simp only [initGivenLoop] at hok2
                split at hok2
                · cases w2 with
                  | lit u2 => exact ih3 _ _ _ _ hnm.2 hok2
                  | func f2 =>
                    try dsimp only at hok2
                    cases hms2 : _comp_make_implicit_setter cs self k2 f2 anons2 with
                    | error e2 => rw [hms2] at hok2; cases hok2
                    | ok anons3 =>
                      rw [hms2] at hok2
                      simp only [except_bind_ok] at hok2
                      have h3 := ih3 _ _ _ _ hnm.2 hok2
                      rw [h3]
                      unfold _comp_make_implicit_setter at hms2
                      split at hms2
                      · cases hms2
                        have hk2 : k2 ≠ name := fun hh => hnm.1 hh.symm
                        rw [List.filter_append]
                        simp [List.filter_cons, hk2]
                      · cases hms2
                · split at hok2 <;> cases hok2
            have h4 := hanons rest _ _ evs res
              (fun hh => hnd.1 hh) hok
            rw [h4, List.filter_append]
            simp [List.filter_cons]
          · cases hms
      · split at hok <;> cases hok
    · have hkname : k ≠ name := by
        rintro rfl
        exact hnd.1 (List.mem_map_of_mem Prod.fst hmem')
      simp only [initGivenLoop] at hok
      split at hok
      · rename_i hk
        cases w with
        | lit u => exact ih _ anons _ res hnd.2 hmem' hok
        | func f =>
          try dsimp only at hok
          cases hms : _comp_make_implicit_setter cs self k f anons with
          | error e => rw [hms] at hok; cases hok
          | ok anons' =>
            rw [hms] at hok
            simp only [except_bind_ok] at hok
            have h := ih vals anons' evs res hnd.2 hmem' hok
            rw [h]
            unfold _comp_make_implicit_setter at hms
            split at hms
            · cases hms
              rw [List.filter_append]
              simp [List.filter_cons, hkname]
            · cases hms
      · split at hok <;> cases hok

/-- C2: for every declared property not given an initial value at
construction, `_comp_init_property_values` produces exactly one synthetic
`set` event whose `old_value` and `new_value` both equal the validated
default value; a literal initial value likewise produces exactly one event
with `old_value` and `new_value` both the validated given value. -/
theorem C2_initial_property_events (cs : CompSpec) (self : String)
    (pv : List (String × InitValue)) (res : InitResult) (name : String)
    (hok : _comp_init_property_values cs self pv = .ok res)
    (hpn : cs.properties.Nodup) (hkn : (pv.map Prod.fst).Nodup)
    (hmem : name ∈ cs.properties) :
    (name ∉ pv.map Prod.fst →
      res.events.filter (fun e => e.type = name) =
        [⟨name, cs.validate name (cs.defaults ("_" ++ name ++ "_value")),
          cs.validate name (cs.defaults ("_" ++ name ++ "_value")), "set"⟩])
  ∧ (∀ v, (name, InitValue.lit v) ∈ pv →
      res.events.filter (fun e => e.type = name) =
        [⟨name, cs.validate name v, cs.validate name v, "set"⟩]) := by
  unfold _comp_init_property_values at hok
  rcases hd : initDefaultsLoop cs (pv.map Prod.fst) cs.properties cs.defaults
    with ⟨vals0, evs0⟩
  rw [hd] at hok
  dsimp only at hok
  constructor
  · intro hnot
    have hnl : ∀ w, (name, InitValue.lit w) ∉ pv := by
      intro w hw
      exact hnot (List.mem_map_of_mem Prod.fst hw)
    have h1 := (initGivenLoop_nolit cs self name pv vals0 [] evs0 res hnl hok).2
    have h2 := initDefaultsLoop_events_mem cs (pv.map Prod.fst) name
      cs.properties cs.defaults hmem hpn
    rw [hd] at h2
    dsimp only at h2
    rw [if_neg hnot] at h2
    rw [h1, h2]
  · intro v hv
    have hkey : name ∈ pv.map Prod.fst := List.mem_map_of_mem Prod.fst hv
    have h1 := initGivenLoop_lit cs self name v pv vals0 [] evs0 res hkn hv hok
    have h2 := initDefaultsLoop_events_mem cs (pv.map Prod.fst) name
      cs.properties cs.defaults hmem hpn
    rw [hd] at h2
    dsimp only at h2
    rw [if_pos hkey] at h2
    rw [h1, h2]
    rfl

/-- Witness for C2: on `csW`, constructing with no initial values yields
exactly one default-valued event for `foo`, and constructing with
`foo = 3` yields exactly one event carrying the given value. -/
theorem C2_initial_property_events_witness :
    (([⟨"foo", PValue.vnone, PValue.vnone, "set"⟩] : List InitEvent).filter
        (fun e => e.type = "foo") = [⟨"foo", PValue.vnone, PValue.vnone, "set"⟩])
  ∧ (([⟨"foo", PValue.vint 3, PValue.vint 3, "set"⟩] : List InitEvent).filter
        (fun e => e.type = "foo") =
      [⟨"foo", PValue.vint 3, PValue.vint 3, "set"⟩]) := by
  constructor
  · exact (C2_initial_property_events csW "c1" []
      ⟨updateStore csW.defaults "_foo_value" PValue.vnone, [],
        [⟨"foo", PValue.vnone, PValue.vnone, "set"⟩]⟩ "foo" rfl
      (by decide) (by decide) (by decide)).1 (by decide)
  · exact (C2_initial_property_events csW "c1"
      [("foo", InitValue.lit (PValue.vint 3))]
      ⟨updateStore (updateStore csW.defaults "_foo_value" PValue.vnone)
        "_foo_value" (PValue.vint 3), [],
        [⟨"foo", PValue.vint 3, PValue.vint 3, "set"⟩]⟩ "foo" rfl
      (by decide) (by decide) (by decide)).2 (PValue.vint 3) (by decide)

/-- C4: a zero-argument callable given as a property's initial value is not
validated and no static value is stored for it — the slot keeps the
validated class default and no construction event is produced for the
property — and instead one anonymous implicit reaction `auto-<name>` with
no connection strings is installed, whose body invokes the `set_<name>`
action with the callable's result. -/
theorem C4_callable_initial_value (cs : CompSpec) (self : String)
    (pv : List (String × InitValue)) (res : InitResult) (name : String)
    (fid : Nat) (callEnv : Nat → PValue)
    (hok : _comp_init_property_values cs self pv = .ok res)
    (hpn : cs.properties.Nodup) (hkn : (pv.map Prod.fst).Nodup)
    (hmem : name ∈ cs.properties)
    (hf : (name, InitValue.func fid) ∈ pv) :
    (res.values ("_" ++ name ++ "_value") =
      cs.validate name (cs.defaults ("_" ++ name ++ "_value")))
  ∧ (res.events.filter (fun e => e.type = name) = [])
  ∧ (res.anons.filter (fun a => a.target_prop = name) =
      [⟨"auto-" ++ name, [], name, fid⟩])
  ∧ (∀ a ∈ res.anons, a.target_prop = name →
      runAnonReaction callEnv a = ("set_" ++ name, [callEnv fid])) := by
  unfold _comp_init_property_values at hok
  rcases hd : initDefaultsLoop cs (pv.map Prod.fst) cs.properties cs.defaults
    with ⟨vals0, evs0⟩
  rw [hd] at hok
  dsimp only at hok
  have hkey : name ∈ pv.map Prod.fst := List.mem_map_of_mem Prod.fst hf
  have hnl : ∀ w, (name, InitValue.lit w) ∉ pv := by
    intro w hw
    have heq := List.inj_on_of_nodup_map hkn hw hf rfl
    simp at heq
  have hstore := (initGivenLoop_nolit cs self name pv vals0 [] evs0 res hnl hok).1
  have hevs := (initGivenLoop_nolit cs self name pv vals0 [] evs0 res hnl hok).2
  have hd1 := initDefaultsLoop_store_mem cs (pv.map Prod.fst) name
    cs.properties cs.defaults hmem hpn
  rw [hd] at hd1
  dsimp only at hd1
  have hd2 := initDefaultsLoop_events_mem cs (pv.map Prod.fst) name
    cs.properties cs.defaults hmem hpn
  rw [hd] at hd2
  dsimp only at hd2
  rw [if_pos hkey] at hd2
  have hanons := initGivenLoop_anons cs self name fid pv vals0 [] evs0 res
    hkn hf hok
  refine ⟨?_, ?_, ?_, ?_⟩
  · rw [hstore, hd1]
  · rw [hevs, hd2]
  · rw [hanons]
    rfl
  · intro a ha htgt
    have hmemf : a ∈ res.anons.filter (fun a => a.target_prop = name) :=
      List.mem_filter.mpr ⟨ha, by simp [htgt]⟩
    rw [hanons] at hmemf
    simp only [List.filter_nil, List.nil_append, List.mem_singleton] at hmemf
    rw [hmemf]
    rfl

/-- Witness for C4: on `csW`, giving `foo` the callable `5` keeps the
default in the slot and installs the `auto-foo` setter reaction, which
invokes `set_foo` with the callable's result. -/
theorem C4_callable_initial_value_witness :
    ((InitResult.values ⟨updateStore csW.defaults "_foo_value" PValue.vnone,
        [⟨"auto-" ++ "foo", [], "foo", 5⟩], []⟩) ("_" ++ "foo" ++ "_value") =
      PValue.vnone)
  ∧ (runAnonReaction (fun _ => PValue.vint 9) ⟨"auto-" ++ "foo", [], "foo", 5⟩ =
      ("set_foo", [PValue.vint 9])) := by
  have h := C4_callable_initial_value csW "c1" [("foo", InitValue.func 5)]
    ⟨updateStore csW.defaults "_foo_value" PValue.vnone,
      [⟨"auto-" ++ "foo", [], "foo", 5⟩], []⟩ "foo" 5 (fun _ => PValue.vint 9)
    rfl (by decide) (by decide) (by decide) (by decide)
  exact ⟨h.1, h.2.2.2 _ (by simp) rfl⟩

/-! ### C1 / C8: batch delivery -/

/-- Notifying a sequence of property-change events appends to each
reaction's queue exactly the events it is subscribed to, in emission
order. -/
theorem notify_all_eq (rs : List (LoopReaction PCEvent)) (evs : List PCEvent) :
    notify_all rs evs = rs.map (fun r =>
      { r with queue := r.queue ++
          evs.filter (fun e => r.subscribed.contains e.type) }) := by
  induction evs generalizing rs with
  | nil => simp [notify_all]
  | cons e evs ih =>
    simp only [notify_all]
    rw [ih]
    unfold emit_notify
    rw [List.map_map]
    apply List.map_congr_left
    intro r _
    simp only [Function.comp]
    by_cases hs : e.type ∈ r.subscribed
    · simp [hs, List.filter_cons]
    · simp [hs, List.filter_cons]

/-- In a registry with duplicate-free reaction names, restricting the
pending-flagged entries to a member's name keeps exactly that member, when
its queue is nonempty. -/
theorem filter_name_of_processed {ε : Type} (l : List (LoopReaction ε))
    (n : String) (x : LoopReaction ε)
    (hn : (l.map LoopReaction.name).Nodup) (hx : x ∈ l) (hname : x.name = n) :
    (l.filter (fun r => ¬ r.queue.isEmpty)).filter (fun q => q.name = n) =
      if x.queue.isEmpty then [] else [x] := by
  induction l with
  | nil => cases hx
  | cons a rest ih =>
    simp only [List.map_cons, List.nodup_cons] at hn
    rcases List.mem_cons.mp hx with rfl | hx'
    · have hrest2 : ∀ a ∈ rest, a.name = n → a.queue = [] := by
        intro b hb hbn
        exact (hn.1 (List.mem_map.mpr ⟨b, hb, hbn.trans hname.symm⟩)).elim
      by_cases hq : x.queue.isEmpty
      · simp [List.filter_cons, hq, hname]
        exact hrest2
      · simp [List.filter_cons, hq, hname]
        exact hrest2
    · have hna : ¬ (a.name = n) := fun h =>
        hn.1 (List.mem_map.mpr ⟨x, hx', hname.trans h.symm⟩)
      by_cases hq : a.queue.isEmpty
      · have h1 : List.filter (fun r => ¬ r.queue.isEmpty) (a :: rest) =
            List.filter (fun r => ¬ r.queue.isEmpty) rest := by
          simp [List.filter_cons, hq]
        rw [h1]
        exact ih hn.2 hx'
      · have h1 : List.filter (fun r => ¬ r.queue.isEmpty) (a :: rest) =
            a :: List.filter (fun r => ¬ r.queue.isEmpty) rest := by
          simp [List.filter_cons, hq]
        have h2 : List.filter (fun q => q.name = n)
            (a :: List.filter (fun r => ¬ r.queue.isEmpty) rest) =
            List.filter (fun q => q.name = n)
              (List.filter (fun r => ¬ r.queue.isEmpty) rest) := by
          simp [List.filter_cons, hna]
        rw [h1, h2]
        exact ih hn.2 hx'

/-- The delivery-key comparison is transitive. -/
theorem sortKeyLe_trans {ε : Type} (a b c : LoopReaction ε)
    (hab : decide (sortKey a ≤ sortKey b) = true)
    (hbc : decide (sortKey b ≤ sortKey c) = true) :
    decide (sortKey a ≤ sortKey c) = true := by
  simp only [decide_eq_true_eq] at *
  exact le_trans hab hbc

/-- The delivery-key comparison is total. -/
theorem sortKeyLe_total {ε : Type} (a b : LoopReaction ε) :
    (decide (sortKey a ≤ sortKey b) || decide (sortKey b ≤ sortKey a)) = true := by
  simp only [Bool.or_eq_true, decide_eq_true_eq]
  exact le_total _ _

/-- C1: once the action queue is empty, each reaction that has pending
events is invoked exactly once with its entire pending queue as one ordered
sequence (N sets of the same property in one batch give one invocation
carrying exactly those N events, in emission order), invocations happen in
ascending `(label-or-name)` sort-key order, a reaction with no pending
events is not invoked, and all queues are cleared after delivery. -/
theorem C1_batch_delivery (rs : List (LoopReaction PCEvent)) (evs : List PCEvent)
    (hnodup : (rs.map LoopReaction.name).Nodup)
    (hempty : ∀ r ∈ rs, r.queue = []) :
    (∀ r ∈ rs, evs.filter (fun e => r.subscribed.contains e.type) ≠ [] →
      ((process_reactions (notify_all rs evs)).1.filter
          (fun q => q.name = r.name)).map (fun q => q.queue) =
        [evs.filter (fun e => r.subscribed.contains e.type)])
  ∧ (∀ r ∈ rs, evs.filter (fun e => r.subscribed.contains e.type) = [] →
      (process_reactions (notify_all rs evs)).1.filter
          (fun q => q.name = r.name) = [])
  ∧ ((process_reactions (notify_all rs evs)).1.Pairwise
      (fun a b => sortKey a ≤ sortKey b))
  ∧ (∀ q ∈ (process_reactions (notify_all rs evs)).2, q.queue = [])
  ∧ (∀ r ∈ rs, ∀ p, evs ≠ [] → (∀ e ∈ evs, e.type = p) →
      r.subscribed.contains p = true →
      ((process_reactions (notify_all rs evs)).1.filter
          (fun q => q.name = r.name)).map (fun q => q.queue) = [evs]) := by
  have hnodup' : ((notify_all rs evs).map LoopReaction.name).Nodup := by
    rw [notify_all_eq, List.map_map]
    exact hnodup
  have hmain : ∀ r ∈ rs,
      (process_reactions (notify_all rs evs)).1.filter
          (fun q => q.name = r.name) =
        if (evs.filter (fun e => r.subscribed.contains e.type)).isEmpty then []
        else [{ r with
                queue := evs.filter (fun e => r.subscribed.contains e.type) }] := by
    intro r hr
    have hq0 : r.queue = [] := hempty r hr
    have hx : { r with
        queue := evs.filter (fun e => r.subscribed.contains e.type) } ∈
        notify_all rs evs := by
      rw [notify_all_eq]
      refine List.mem_map.mpr ⟨r, hr, ?_⟩
      simp [hq0]
    have hfp := filter_name_of_processed (notify_all rs evs) r.name
      { r with queue := evs.filter (fun e => r.subscribed.contains e.type) }
      hnodup' hx rfl
    have hperm : ((process_reactions (notify_all rs evs)).1.filter
        (fun q => q.name = r.name)).Perm
        (((notify_all rs evs).filter (fun q => ¬ q.queue.isEmpty)).filter
          (fun q => q.name = r.name)) :=
      (List.mergeSort_perm _ _).filter _
    rw [hfp] at hperm
    by_cases he : (evs.filter (fun e => r.subscribed.contains e.type)).isEmpty
    · rw [if_pos he] at hperm ⊢
      exact List.perm_nil.mp (by simpa [he] using hperm)
    · rw [if_neg he] at hperm ⊢
      exact List.perm_singleton.mp (by simpa [he] using hperm)
  have hA : ∀ r ∈ rs, evs.filter (fun e => r.subscribed.contains e.type) ≠ [] →
      ((process_reactions (notify_all rs evs)).1.filter
          (fun q => q.name = r.name)).map (fun q => q.queue) =
        [evs.filter (fun e => r.subscribed.contains e.type)] := by
    intro r hr hne
    have h := hmain r hr
    rw [if_neg (by simpa using hne)] at h
    rw [h]
    rfl
  refine ⟨hA, ?_, ?_, ?_, ?_⟩
  · intro r hr hnil
    have h := hmain r hr
    rw [if_pos (by rw [hnil]; rfl)] at h
    exact h
  · have hs := @List.sorted_mergeSort (LoopReaction PCEvent)
      (fun a b => decide (sortKey a ≤ sortKey b))
      (fun a b c hab hbc => sortKeyLe_trans a b c hab hbc)
      (fun a b => sortKeyLe_total a b)
      ((notify_all rs evs).filter (fun r => ¬ r.queue.isEmpty))
    exact hs.imp (fun h => of_decide_eq_true h)
  · intro q hq
    have hq' : q ∈ (notify_all rs evs).map
        (fun r => { r with queue := ([] : List PCEvent) }) := hq
    rcases List.mem_map.mp hq' with ⟨r', _, rfl⟩
    rfl
  · intro r hr p hne hall hsub
    have hfe : evs.filter (fun e => r.subscribed.contains e.type) = evs := by
      apply List.filter_eq_self.mpr
      intro e he
      rw [hall e he]
      exact hsub
    have h := hA r hr (by rw [hfe]; exact hne)
    rw [hfe] at h
    exact h

/-- Concrete two-reaction registry used by the C1 witness: an unlabeled
reaction named `zzz` and an `aa`-labeled reaction, both subscribed to the
`foo` event type. -/
def rsW : List (LoopReaction PCEvent) :=
  [⟨"zzz", none, ["foo"], []⟩, ⟨"my_foo_handler", some "aa", ["foo"], []⟩]

/-- Two `foo` set events as emitted by two sets of `foo` in one action. -/
def evsW : List PCEvent :=
  [⟨"foo", 1, PValue.vint 0, PValue.vint 1, "set"⟩,
   ⟨"foo", 1, PValue.vint 1, PValue.vint 2, "set"⟩]

/-- Witness for C1: the unlabeled `zzz` reaction receives both `foo` events
in one invocation, and the invocation sequence is ascending in sort key
(so the `aa`-labeled reaction is invoked before `zzz`). -/
theorem C1_batch_delivery_witness :
    (((process_reactions (notify_all rsW evsW)).1.filter
        (fun q => q.name = "zzz")).map (fun q => q.queue) = [evsW])
  ∧ ((process_reactions (notify_all rsW evsW)).1.Pairwise
      (fun a b => sortKey a ≤ sortKey b)) := by
  have h := C1_batch_delivery rsW evsW (by decide) (by decide)
  constructor
  · exact h.2.2.2.2 ⟨"zzz", none, ["foo"], []⟩ (by simp [rsW]) "foo"
      (by simp [evsW]) (by decide) (by decide)
  · exact h.2.2.1

/-- The first loop of `_comp_init_reactions` registers exactly the implicit
class reactions, each with the synthetic event. -/
theorem initClassReactionsLoop_eq (self : Nat) (crs : List ClassReaction) :
    initClassReactionsLoop self crs =
      (crs.filter (fun r => r.connection_strings.isEmpty)).map
        (fun r => (r.name, (⟨self, "", ""⟩ : SynthEvent))) := by
  induction crs with
  | nil => rfl
  | cons r rest ih =>
    simp only [initClassReactionsLoop, ih, List.filter_cons]
    by_cases h : r.connection_strings.isEmpty <;> simp [is_explicit, h]

/-- The second loop of `_comp_init_reactions` registers exactly the
implicit anonymous reactions, each with the synthetic event. -/
theorem initAnonReactionsLoop_eq (self : Nat) (anons : List AnonReaction) :
    initAnonReactionsLoop self anons =
      (anons.filter (fun a => a.connection_strings.isEmpty)).map
        (fun a => (a.name, (⟨self, "", ""⟩ : SynthEvent))) := by
  induction anons with
  | nil => rfl
  | cons a rest ih =>
    simp only [initAnonReactionsLoop, ih, List.filter_cons]
    by_cases h : a.connection_strings.isEmpty <;> simp [is_explicit, h]

/-- C8: at construction, every implicit reaction — class-declared with no
connection strings, or anonymous from a callable initial value — is
registered with the loop together with exactly one synthetic event with
empty type and label, so one batch step invokes it exactly once with that
event; explicit reactions receive no synthetic event. -/
theorem C8_implicit_reactions_synthetic_event (self : Nat)
    (crs : List ClassReaction) (anons : List AnonReaction)
    (hnodup : (crs.map ClassReaction.name ++
      anons.map AnonReaction.name).Nodup) :
    (∀ r ∈ crs, r.connection_strings = [] →
      (_comp_init_reactions self crs anons).filter (fun p => p.1 = r.name) =
        [(r.name, ⟨self, "", ""⟩)])
  ∧ (∀ r ∈ crs, r.connection_strings ≠ [] →
      (_comp_init_reactions self crs anons).filter (fun p => p.1 = r.name) = [])
  ∧ (∀ a ∈ anons, a.connection_strings = [] →
      (_comp_init_reactions self crs anons).filter (fun p => p.1 = a.name) =
        [(a.name, ⟨self, "", ""⟩)])
  ∧ (∀ r ∈ crs, r.connection_strings = [] →
      ((process_reactions (pendingOfInit
          (_comp_init_reactions self crs anons))).1.filter
        (fun q => q.name = r.name)).map (fun q => q.queue) =
        [[⟨self, "", ""⟩]])
  ∧ (∀ a ∈ anons, a.connection_strings = [] →
      ((process_reactions (pendingOfInit
          (_comp_init_reactions self crs anons))).1.filter
        (fun q => q.name = a.name)).map (fun q => q.queue) =
        [[⟨self, "", ""⟩]]) := by
  have hre : _comp_init_reactions self crs anons =
      (crs.filter (fun r => r.connection_strings.isEmpty)).map
        (fun r => (r.name, (⟨self, "", ""⟩ : SynthEvent)))
      ++ (anons.filter (fun a => a.connection_strings.isEmpty)).map
        (fun a => (a.name, (⟨self, "", ""⟩ : SynthEvent))) := by
    unfold _comp_init_reactions
    rw [initClassReactionsLoop_eq, initAnonReactionsLoop_eq]
  have hkeys_sub : ((_comp_init_reactions self crs anons).map Prod.fst).Sublist
      (crs.map ClassReaction.name ++ anons.map AnonReaction.name) := by
    rw [hre, List.map_append, List.map_map, List.map_map]
    exact List.Sublist.append
      ((List.filter_sublist _).map _) ((List.filter_sublist _).map _)
  have hkeysnodup : ((_comp_init_reactions self crs anons).map Prod.fst).Nodup :=
    hnodup.sublist hkeys_sub
  have hand := List.nodup_append.mp hnodup
  have hA : ∀ r ∈ crs, r.connection_strings = [] →
      (_comp_init_reactions self crs anons).filter (fun p => p.1 = r.name) =
        [(r.name, ⟨self, "", ""⟩)] := by
    intro r hr hcs
    have hmem : (r.name, (⟨self, "", ""⟩ : SynthEvent)) ∈
        _comp_init_reactions self crs anons := by
      rw [hre]
      exact List.mem_append_left _
        (List.mem_map_of_mem _ (List.mem_filter.mpr ⟨hr, by simp [hcs]⟩))
    exact filter_key_eq_of_nodup Prod.fst _ hkeysnodup _ hmem
  have hdeliver : ∀ nm : String, (nm, (⟨self, "", ""⟩ : SynthEvent)) ∈
      _comp_init_reactions self crs anons →
      ((process_reactions (pendingOfInit
          (_comp_init_reactions self crs anons))).1.filter
        (fun q => q.name = nm)).map (fun q => q.queue) = [[⟨self, "", ""⟩]] := by
    intro nm hmem
    have hx : (⟨nm, none, [], [⟨self, "", ""⟩]⟩ : LoopReaction SynthEvent) ∈
        pendingOfInit (_comp_init_reactions self crs anons) := by
      unfold pendingOfInit
      exact List.mem_map_of_mem _ hmem
    have hpn : ((pendingOfInit (_comp_init_reactions self crs anons)).map
        LoopReaction.name).Nodup := by
      unfold pendingOfInit
      rw [List.map_map]
      exact hkeysnodup
    have hfp := filter_name_of_processed
      (pendingOfInit (_comp_init_reactions self crs anons)) nm
      ⟨nm, none, [], [⟨self, "", ""⟩]⟩ hpn hx rfl
    have hperm : ((process_reactions (pendingOfInit
        (_comp_init_reactions self crs anons))).1.filter
        (fun q => q.name = nm)).Perm
        (((pendingOfInit (_comp_init_reactions self crs anons)).filter
          (fun q => ¬ q.queue.isEmpty)).filter (fun q => q.name = nm)) :=
      (List.mergeSort_perm _ _).filter _
    rw [hfp] at hperm
    have heq := List.perm_singleton.mp (by simpa using hperm)
    rw [heq]
    rfl
  refine ⟨hA, ?_, ?_, ?_, ?_⟩
  · intro r hr hcs
    apply filter_key_eq_nil Prod.fst _ _ ?_
    rw [hre, List.map_append, List.map_map, List.map_map]
    intro hmk
    rcases List.mem_append.mp hmk with hmk1 | hmk2
    · rcases List.mem_map.mp hmk1 with ⟨r', hr', heq⟩
      have hr'' : r' ∈ crs := List.mem_of_mem_filter hr'
      have hrr : r' = r := List.inj_on_of_nodup_map hand.1 hr'' hr heq
      have hie := (List.mem_filter.mp hr').2
      rw [hrr] at hie
      exact hcs (by simpa using hie)
    · rcases List.mem_map.mp hmk2 with ⟨a', ha', heq⟩
      have ha'' : a' ∈ anons := List.mem_of_mem_filter ha'
      exact hand.2.2 (List.mem_map_of_mem ClassReaction.name hr)
        (heq ▸ List.mem_map_of_mem AnonReaction.name ha'')
  · intro a ha hcs
    have hmem : (a.name, (⟨self, "", ""⟩ : SynthEvent)) ∈
        _comp_init_reactions self crs anons := by
      rw [hre]
      exact List.mem_append_right _
        (List.mem_map_of_mem _ (List.mem_filter.mpr ⟨ha, by simp [hcs]⟩))
    exact filter_key_eq_of_nodup Prod.fst _ hkeysnodup _ hmem
  · intro r hr hcs
    apply hdeliver
    rw [hre]
    exact List.mem_append_left _
      (List.mem_map_of_mem _ (List.mem_filter.mpr ⟨hr, by simp [hcs]⟩))
  · intro a ha hcs
    apply hdeliver
    rw [hre]
    exact List.mem_append_right _
      (List.mem_map_of_mem _ (List.mem_filter.mpr ⟨ha, by simp [hcs]⟩))

/-- Witness for C8: one implicit and one explicit class reaction plus one
anonymous setter reaction; the implicit ones each get one synthetic event,
the explicit one none, and both the implicit class reaction and the
anonymous one are delivered once each. -/
theorem C8_implicit_reactions_synthetic_event_witness :
    ((_comp_init_reactions 4 [⟨"greet", []⟩, ⟨"track", ["foo"]⟩]
        [⟨"auto-foo", [], "foo", 5⟩]).filter (fun p => p.1 = "greet") =
      [("greet", ⟨4, "", ""⟩)])
  ∧ ((_comp_init_reactions 4 [⟨"greet", []⟩, ⟨"track", ["foo"]⟩]
        [⟨"auto-foo", [], "foo", 5⟩]).filter (fun p => p.1 = "track") = [])
  ∧ ((_comp_init_reactions 4 [⟨"greet", []⟩, ⟨"track", ["foo"]⟩]
        [⟨"auto-foo", [], "foo", 5⟩]).filter (fun p => p.1 = "auto-foo") =
      [("auto-foo", ⟨4, "", ""⟩)])
  ∧ (((process_reactions (pendingOfInit (_comp_init_reactions 4
        [⟨"greet", []⟩, ⟨"track", ["foo"]⟩]
        [⟨"auto-foo", [], "foo", 5⟩]))).1.filter
      (fun q => q.name = "greet")).map (fun q => q.queue) = [[⟨4, "", ""⟩]])
  ∧ (((process_reactions (pendingOfInit (_comp_init_reactions 4
        [⟨"greet", []⟩, ⟨"track", ["foo"]⟩]
        [⟨"auto-foo", [], "foo", 5⟩]))).1.filter
      (fun q => q.name = "auto-foo")).map (fun q => q.queue) =
      [[⟨4, "", ""⟩]]) := by
  have h := C8_implicit_reactions_synthetic_event 4
    [⟨"greet", []⟩, ⟨"track", ["foo"]⟩] [⟨"auto-foo", [], "foo", 5⟩] (by decide)
  exact ⟨h.1 ⟨"greet", []⟩ (by simp) rfl,
    h.2.1 ⟨"track", ["foo"]⟩ (by simp) (by simp),
    h.2.2.1 ⟨"auto-foo", [], "foo", 5⟩ (by simp) rfl,
    h.2.2.2.1 ⟨"greet", []⟩ (by simp) rfl,
    h.2.2.2.2 ⟨"auto-foo", [], "foo", 5⟩ (by simp) rfl⟩

end Flexx
